import Mathlib

/-!
# Verification of the coder tailnet-coordinator HTTP surface

A shallow embedding of `enterprise/coderd/workspaceproxycoordinate.go`
(the `agentIsLegacy` and `workspaceProxyCoordinate` handlers) together
with models of the coordinator pieces those handlers rely on (peer-id
registry, per-peer coalescing queue, multi-agent aggregator, websocket
wait-group drain).  Pieces whose implementation is not part of this
tree are modelled from the specification and carry a doc comment
saying so.
-/

set_option linter.unusedVariables false

/-! ## Basic data model -/

/-- PeerID: an opaque 128-bit identifier (UUID). -/
abbrev UUID := Fin (2 ^ 128)

/-- One entry of a Node's `Addresses` list (a `netip.Prefix`); the
coordinator only ever reads the address part via `.Addr()`, modelled
here as the `addr` field. -/
structure Address where
  addr : Nat
deriving DecidableEq, Repr

/-- A tailnet Node as the coordinator sees it: an opaque structured
value from which only the `Addresses` list is ever inspected (for the
legacy query); the remaining fields are carried opaquely. -/
structure Node where
  addresses : List Address
  preferredDERP : Nat
deriving DecidableEq, Repr

/-- Modelled from the spec: `codersdk.WorkspaceAgentIP`, the well-known
historical per-agent link-local address (the constant lives in the
`codersdk` package, outside this tree); its concrete value is opaque to
the coordinator, only equality with it is tested. -/
def WorkspaceAgentIP : Nat := 0xfd7a115ca1e049d6b259b7acb1b248f4

/-- The coordinator as the HTTP handlers see it: the `Node(id)` lookup
(`node_of` in the spec), answering the last-announced node of a
currently connected peer, `none` otherwise. -/
structure Coordinator where
  node : UUID → Option Node

/-! ## The `agentIsLegacy` handler -/

/-- `wsproxysdk.AgentIsLegacyResponse`: the JSON body
`{ found: bool, legacy: bool }` written by the legacy endpoint. -/
structure AgentIsLegacyResponse where
  found : Bool
  legacy : Bool
deriving DecidableEq, Repr

/-- The body written by the handler: either a `codersdk.Response` error
message or the legacy response. -/
inductive ResponseBody
  | errorResponse (message : String)
  | legacyResponse (resp : AgentIsLegacyResponse)
deriving DecidableEq, Repr

/-- Observable outcome of one run of the `agentIsLegacy` handler: the
HTTP status and body written, and whether the coordinator was queried
at all. -/
structure HandlerRun where
  status : Nat
  body : ResponseBody
  coordinatorQueried : Bool
deriving DecidableEq, Repr

/-- The `legacy` field computed by the handler, embedding the Go
expression `node != nil && len(node.Addresses) > 0 &&
node.Addresses[0].Addr() == codersdk.WorkspaceAgentIP`; the
short-circuit `&&` means the index is taken only under the length
guard, which the dependent `if` mirrors. -/
def agentIsLegacyFlag (node : Option Node) : Bool :=
  node.isSome &&
    (match node with
     | some n =>
       if h : 0 < n.addresses.length then
         decide ((n.addresses.get ⟨0, h⟩).addr = WorkspaceAgentIP)
       else false
     | none => false)

/-- Embedding of `(*API).agentIsLegacy`: `param` is the result of
`httpmw.ParseUUIDParam(rw, r, "workspaceagent")` (`none` when the path
parameter does not parse as a UUID).  Returns the observable run and
the (unchanged) coordinator state after the request. -/
def agentIsLegacy (coord : Coordinator) (param : Option UUID) :
    HandlerRun × Coordinator :=
  match param with
  | none =>
    ({ status := 400
       body := .errorResponse "Missing UUID in URL."
       coordinatorQueried := false }, coord)
  | some agentID =>
    let node := coord.node agentID
    ({ status := 200
       body := .legacyResponse
         { found := node.isSome
           legacy := agentIsLegacyFlag node }
       coordinatorQueried := true }, coord)

/-- The legacy formula exactly as the spec words it:
`legacy = found && addresses[0] == WELL_KNOWN_LEGACY_IP`, reading
"addresses[0] equals the IP" as: the first address exists and equals
the well-known legacy IP. -/
def specLegacyFormula (node : Option Node) : Bool :=
  node.isSome &&
    decide ((node.bind fun n => n.addresses.head?.map Address.addr) =
      some WorkspaceAgentIP)

theorem agentIsLegacyFlag_eq_spec (node : Option Node) :
    agentIsLegacyFlag node = specLegacyFormula node := by
  cases node with
  | none => rfl
  | some n =>
    cases h : n.addresses with
    | nil => simp [agentIsLegacyFlag, specLegacyFormula, h]
    | cons a rest =>
      simp only [agentIsLegacyFlag, specLegacyFormula, h, Option.isSome_some,
        Bool.true_and, Option.bind_some]
      rw [dif_pos (by simp)]
      simp [h]

/-! ## Claim theorems about the legacy endpoint -/

/-- C1: for every GET /workspaceagents/{id}/legacy request whose path
parameter parses as a UUID, the handler writes status 200 with body
`{ found, legacy }` where `found` is true iff the coordinator currently
has a node for that agent id, and `legacy = found && addresses[0] ==
WorkspaceAgentIP` (the spec's formula). -/
theorem C1_legacy_endpoint_response (coord : Coordinator) (id : UUID) :
    (agentIsLegacy coord (some id)).1 =
      { status := 200
        body := .legacyResponse
          { found := (coord.node id).isSome
            legacy := specLegacyFormula (coord.node id) }
        coordinatorQueried := true } := by
  simp [agentIsLegacy, agentIsLegacyFlag_eq_spec]

/-- C3: when the coordinator's node lookup returns `nil` for the agent
id, the handler answers `found = false` (and `legacy = false`), and the
response is one and the same for any two coordinator states in which
the lookup returns `nil` — "never connected" and "disconnected" are
indistinguishable in the response. -/
theorem C3_not_connected_found_false (c1 c2 : Coordinator) (id : UUID)
    (h1 : c1.node id = none) (h2 : c2.node id = none) :
    (agentIsLegacy c1 (some id)).1 =
      { status := 200
        body := .legacyResponse { found := false, legacy := false }
        coordinatorQueried := true } ∧
    (agentIsLegacy c1 (some id)).1 = (agentIsLegacy c2 (some id)).1 := by
  constructor
  · simp [agentIsLegacy, h1, agentIsLegacyFlag]
  · simp [agentIsLegacy, h1, h2]

theorem C3_not_connected_found_false_witness :
    (Coordinator.mk fun _ => none).node 0 = none ∧
    ((agentIsLegacy (Coordinator.mk fun _ => none) (some 0)).1 =
      { status := 200
        body := .legacyResponse { found := false, legacy := false }
        coordinatorQueried := true } ∧
    (agentIsLegacy (Coordinator.mk fun _ => none) (some 0)).1 =
      (agentIsLegacy (Coordinator.mk fun _ => none) (some 0)).1) :=
  ⟨rfl, C3_not_connected_found_false _ _ 0 rfl rfl⟩

/-- C9: the legacy answer is total: a found node with an empty
`Addresses` list yields `found = true, legacy = false` (the length
guard short-circuits before the index), and `legacy = true` only when
the node exists, has at least one address, and its first address equals
`WorkspaceAgentIP`. -/
theorem C9_legacy_total_on_empty_addresses (coord : Coordinator) (id : UUID)
    (n : Node) (hn : coord.node id = some n) (he : n.addresses = []) :
    (agentIsLegacy coord (some id)).1.body =
      .legacyResponse { found := true, legacy := false } ∧
    (∀ (c : Coordinator) (j : UUID) (r : AgentIsLegacyResponse),
      (agentIsLegacy c (some j)).1.body = .legacyResponse r →
      r.legacy = true →
      ∃ m, c.node j = some m ∧ ∃ a, m.addresses.head? = some a ∧
        a.addr = WorkspaceAgentIP) := by
  constructor
  · simp [agentIsLegacy, hn, agentIsLegacyFlag, he]
  · intro c j r hbody hleg
    simp only [agentIsLegacy] at hbody
    obtain ⟨hf, hl⟩ : r.found = (c.node j).isSome ∧
        r.legacy = agentIsLegacyFlag (c.node j) := by
      cases hbody; exact ⟨rfl, rfl⟩
    rw [hl, agentIsLegacyFlag_eq_spec] at hleg
    cases hm : c.node j with
    | none => rw [hm] at hleg; simp [specLegacyFormula] at hleg
    | some m =>
      rw [hm] at hleg
      refine ⟨m, rfl, ?_⟩
      cases ha : m.addresses.head? with
      | none => simp [specLegacyFormula, ha] at hleg
      | some a =>
        simp [specLegacyFormula, ha] at hleg
        exact ⟨a, rfl, hleg⟩

theorem C9_legacy_total_on_empty_addresses_witness :
    (Coordinator.mk fun _ => some ⟨[], 0⟩).node 0 = some ⟨[], 0⟩ ∧
    (agentIsLegacy (Coordinator.mk fun _ => some ⟨[], 0⟩) (some 0)).1.body =
      .legacyResponse { found := true, legacy := false } :=
  ⟨rfl, (C9_legacy_total_on_empty_addresses
    (Coordinator.mk fun _ => some ⟨[], 0⟩) 0 ⟨[], 0⟩ rfl rfl).1⟩

/-- C10: when the path parameter does not parse as a UUID, the handler
writes HTTP 400 with message "Missing UUID in URL.", never queries the
coordinator, and leaves the coordinator state unchanged. -/
theorem C10_bad_uuid_400 (coord : Coordinator) :
    agentIsLegacy coord none =
      ({ status := 400
         body := .errorResponse "Missing UUID in URL."
         coordinatorQueried := false }, coord) := rfl

/-! ## The `workspaceProxyCoordinate` handler

The handler's observable behaviour is embedded as the sequence of
effects it performs, in program order: wait-group add, websocket
accept, `ServeMultiAgent`, `tailnet.ServeWorkspaceProxy` over the
upgraded stream, close actions, deferred wait-group done. -/

/-- One observable effect of the coordinate handler. -/
inductive CoordEvent
  | wgAdd
  | wgDone
  | writeHTTP (status : Nat) (message : String)
  | serveMultiAgent (id : UUID)
  | serveProxy (id : UUID)
  | serveEnd (id : UUID)
  | wsClose (code : Nat)
  | netConnClose
deriving DecidableEq, Repr

/-- `websocket.StatusInternalError` close code. -/
def StatusInternalError : Nat := 1011

/-- Embedding of `(*API).workspaceProxyCoordinate`: `acceptOk` is
whether `websocket.Accept` succeeded, `freshID` the `uuid.New()`
result, `serveErr` the error `tailnet.ServeWorkspaceProxy` returned
(`none` on clean end of stream).  Deferred calls run in LIFO order:
`nc.Close()` then `WebsocketWaitGroup.Done()`. -/
def workspaceProxyCoordinate (acceptOk : Bool) (freshID : UUID)
    (serveErr : Option String) : List CoordEvent :=
  match acceptOk with
  | false =>
    [CoordEvent.wgAdd,
     CoordEvent.writeHTTP 400 "Failed to accept websocket.",
     CoordEvent.wgDone]
  | true =>
    [CoordEvent.wgAdd,
     CoordEvent.serveMultiAgent freshID,
     CoordEvent.serveProxy freshID,
     CoordEvent.serveEnd freshID] ++
    (match serveErr with
     | some _ => [CoordEvent.wsClose StatusInternalError]
     | none => []) ++
    [CoordEvent.netConnClose, CoordEvent.wgDone]

/-- C4: every coordinate request that successfully upgrades binds a
MultiAgentClient to the stream: in order, the handler obtains a
multi-agent handle via `ServeMultiAgent` with a peer id, serves the
proxy's traffic over the stream with that handle, and only after
serving ends is the stream closed — whatever the serve outcome. -/
theorem C4_coordinate_binds_multiagent (id : UUID) (serveErr : Option String) :
    [CoordEvent.serveMultiAgent id, CoordEvent.serveProxy id,
     CoordEvent.serveEnd id, CoordEvent.netConnClose].Sublist
      (workspaceProxyCoordinate true id serveErr) := by
  cases serveErr with
  | none =>
    simp only [workspaceProxyCoordinate, List.append_nil, List.cons_append,
      List.nil_append]
    exact List.Sublist.cons _ (List.Sublist.cons₂ _ (List.Sublist.cons₂ _
      (List.Sublist.cons₂ _ (List.Sublist.cons₂ _ (List.nil_sublist _)))))
  | some e =>
    simp only [workspaceProxyCoordinate, List.cons_append, List.nil_append]
    exact List.Sublist.cons _ (List.Sublist.cons₂ _ (List.Sublist.cons₂ _
      (List.Sublist.cons₂ _ (List.Sublist.cons _ (List.Sublist.cons₂ _
        (List.nil_sublist _))))))

/-- C5: an HTTP status is written on a coordinate request exactly when
the websocket handshake fails, every status written is the 400, and
once the stream is upgraded errors are conveyed only by closing the
stream (websocket close with `StatusInternalError`, then the net conn
close). -/
theorem C5_4xx_only_on_handshake_failure (acceptOk : Bool) (id : UUID)
    (serveErr : Option String) :
    ((∃ s msg, CoordEvent.writeHTTP s msg ∈
        workspaceProxyCoordinate acceptOk id serveErr) ↔ acceptOk = false) ∧
    (∀ s msg, CoordEvent.writeHTTP s msg ∈
        workspaceProxyCoordinate acceptOk id serveErr → s = 400) ∧
    (acceptOk = true → serveErr.isSome = true →
      CoordEvent.wsClose StatusInternalError ∈
        workspaceProxyCoordinate acceptOk id serveErr ∧
      CoordEvent.netConnClose ∈
        workspaceProxyCoordinate acceptOk id serveErr) := by
  cases acceptOk <;> cases serveErr <;>
    simp [workspaceProxyCoordinate]

theorem C5_4xx_only_on_handshake_failure_witness :
    ((∃ s msg, CoordEvent.writeHTTP s msg ∈
        workspaceProxyCoordinate false 0 none) ↔ false = false) ∧
    (∀ s msg, CoordEvent.writeHTTP s msg ∈
        workspaceProxyCoordinate false 0 none → s = 400) ∧
    (false = true → Option.isSome (none : Option String) = true →
      CoordEvent.wsClose StatusInternalError ∈
        workspaceProxyCoordinate false 0 none ∧
      CoordEvent.netConnClose ∈
        workspaceProxyCoordinate false 0 none) :=
  C5_4xx_only_on_handshake_failure false 0 none

/-! ## Peer-id registry and namespaces -/

/-- The two PeerID namespaces of the data model. -/
inductive PeerKind
  | agent
  | client
deriving DecidableEq, Repr

/-- Modelled from the spec: the peer registry (the coordinator's
authoritative map of currently-connected peers, whose implementation
lives in the tailnet coordinator outside this tree), restricted to the
ids it holds, split by namespace. -/
structure PeerRegistry where
  agents : List UUID
  clients : List UUID
deriving DecidableEq, Repr

/-- All ids currently registered, across both namespaces. -/
def PeerRegistry.allIDs (r : PeerRegistry) : List UUID :=
  r.agents ++ r.clients

/-- Modelled from the spec: `ErrDuplicatePeer` — register with an id
already present. -/
inductive RegisterError
  | errDuplicatePeer
deriving DecidableEq, Repr

/-- Modelled from the spec: `register(peer) → Result<(), Duplicate>`:
insert, fail if the id is already present (in either namespace, per
data-model invariant 1: unique across namespaces). -/
def PeerRegistry.register (r : PeerRegistry) (k : PeerKind) (id : UUID) :
    Except RegisterError PeerRegistry :=
  if id ∈ r.allIDs then .error .errDuplicatePeer
  else match k with
    | .agent => .ok { r with agents := id :: r.agents }
    | .client => .ok { r with clients := id :: r.clients }

/-- Modelled from the spec: `unregister(id)` — remove the record. -/
def PeerRegistry.unregister (r : PeerRegistry) (id : UUID) : PeerRegistry :=
  { agents := r.agents.erase id, clients := r.clients.erase id }

/-- A registry operation: a register attempt (for a given namespace) or
an unregister. -/
inductive RegOp
  | reg (k : PeerKind) (id : UUID)
  | unreg (id : UUID)

/-- Apply one registry operation; a rejected register (duplicate peer)
leaves the registry unchanged — the old connection continues. -/
def applyRegOp (r : PeerRegistry) (op : RegOp) : PeerRegistry :=
  match op with
  | .reg k id =>
    match r.register k id with
    | .ok r' => r'
    | .error _ => r
  | .unreg id => r.unregister id

/-- The empty registry. -/
def emptyRegistry : PeerRegistry := { agents := [], clients := [] }

theorem applyRegOp_nodup (r : PeerRegistry) (op : RegOp)
    (h : r.allIDs.Nodup) : (applyRegOp r op).allIDs.Nodup := by
  cases op with
  | reg k id =>
    by_cases hmem : id ∈ r.allIDs
    · have heq : applyRegOp r (.reg k id) = r := by
        simp [applyRegOp, PeerRegistry.register, hmem]
      rw [heq]; exact h
    · cases k with
      | agent =>
        have heq : applyRegOp r (.reg .agent id) =
            { r with agents := id :: r.agents } := by
          simp [applyRegOp, PeerRegistry.register, hmem]
        rw [heq]
        simp only [PeerRegistry.allIDs] at h ⊢
        simp only [List.cons_append, List.nodup_cons]
        exact ⟨by simpa [PeerRegistry.allIDs] using hmem, h⟩
      | client =>
        have heq : applyRegOp r (.reg .client id) =
            { r with clients := id :: r.clients } := by
          simp [applyRegOp, PeerRegistry.register, hmem]
        rw [heq]
        simp only [PeerRegistry.allIDs] at h ⊢
        rw [List.nodup_append] at h ⊢
        obtain ⟨ha, hc, hd⟩ := h
        simp only [PeerRegistry.allIDs, List.mem_append] at hmem
        push_neg at hmem
        refine ⟨ha, List.Nodup.cons (fun hin => hmem.2 hin) hc, ?_⟩
        intro x hx hxc
        rcases List.mem_cons.mp hxc with hxid | hxc'
        · exact hmem.1 (hxid ▸ hx)
        · exact hd hx hxc'
  | unreg id =>
    simp only [applyRegOp, PeerRegistry.unregister, PeerRegistry.allIDs] at h ⊢
    rw [List.nodup_append] at h ⊢
    obtain ⟨ha, hc, hd⟩ := h
    refine ⟨ha.erase id, hc.erase id, ?_⟩
    intro x hx hxc
    exact hd (List.mem_of_mem_erase hx) (List.mem_of_mem_erase hxc)

/-- C7: peer ids are 128-bit UUIDs: every value of the `UUID` type fits
in 128 bits; the id bound by the coordinate handler is generated by the
caller (the handler's own `uuid.New()` result is the id it passes to
`ServeMultiAgent`); and after any sequence of registry operations from
the empty registry, the registered ids are pairwise distinct — no id is
in use twice — with the agent and client namespaces disjoint. -/
theorem C7_peer_ids_unique_disjoint :
    (∀ u : UUID, u.val < 2 ^ 128) ∧
    (∀ (id : UUID) (serveErr : Option String),
      CoordEvent.serveMultiAgent id ∈ workspaceProxyCoordinate true id serveErr) ∧
    (∀ ops : List RegOp,
      (ops.foldl applyRegOp emptyRegistry).allIDs.Nodup ∧
      ∀ id, id ∈ (ops.foldl applyRegOp emptyRegistry).agents →
        id ∉ (ops.foldl applyRegOp emptyRegistry).clients) := by
  refine ⟨fun u => u.isLt, ?_, ?_⟩
  · intro id serveErr
    cases serveErr <;> simp [workspaceProxyCoordinate]
  · intro ops
    have key : ∀ (l : List RegOp) (r : PeerRegistry), r.allIDs.Nodup →
        (l.foldl applyRegOp r).allIDs.Nodup := by
      intro l
      induction l with
      | nil => intro r h; exact h
      | cons op rest ih =>
        intro r h
        exact ih _ (applyRegOp_nodup r op h)
    have hnd : (ops.foldl applyRegOp emptyRegistry).allIDs.Nodup :=
      key ops emptyRegistry (by simp [emptyRegistry, PeerRegistry.allIDs])
    refine ⟨hnd, ?_⟩
    intro id ha hc
    exact (List.nodup_append.mp hnd).2.2 ha hc

/-! ## Websocket wait group and graceful drain -/

/-- Phase of one coordinate connection: being served, or ended. -/
inductive ProxySession
  | serving
  | finished
deriving DecidableEq, Repr

/-- Number of coordinate streams still being served. -/
def countServing : List ProxySession → Nat
  | [] => 0
  | ProxySession.serving :: rest => countServing rest + 1
  | ProxySession.finished :: rest => countServing rest

/-- The server state relevant to draining: the
`WebsocketWaitGroup` counter, the coordinate sessions, and whether
`shutdown()` has returned. -/
structure CoordServerState where
  wgCount : Nat
  sessions : List ProxySession
  shutdownDone : Bool
deriving DecidableEq, Repr

/-- An interleaving step of the server: a handler starts serving a
coordinate stream (its `WebsocketWaitGroup.Add(1)` precedes serving, as
in the handler source), a stream's serving ends (the deferred
`Done()` runs), or shutdown's wait completes. -/
inductive ServerOp
  | connStart
  | connFinish (i : Nat)
  | shutdownReturn

/-- Modelled from the spec for the two parts outside this tree:
`shutdown()` waits on the wait group (its return step is enabled only
at counter zero) and accepts no new serves once it has returned; the
`connStart`/`connFinish` steps mirror the handler's `Add(1)` before
serving and deferred `Done()` after serving from the source. -/
def applyServerOp (s : CoordServerState) (op : ServerOp) : CoordServerState :=
  match op with
  | .connStart =>
    if s.shutdownDone then s
    else { s with wgCount := s.wgCount + 1
                  sessions := s.sessions ++ [ProxySession.serving] }
  | .connFinish i =>
    match s.sessions.get? i with
    | some ProxySession.serving =>
      { s with wgCount := s.wgCount - 1
               sessions := s.sessions.set i ProxySession.finished }
    | _ => s
  | .shutdownReturn =>
    if s.wgCount = 0 then { s with shutdownDone := true } else s

/-- The server before any connection. -/
def initServerState : CoordServerState :=
  { wgCount := 0, sessions := [], shutdownDone := false }

theorem countServing_append_serving (l : List ProxySession) :
    countServing (l ++ [ProxySession.serving]) = countServing l + 1 := by
  induction l with
  | nil => rfl
  | cons hd tl ih => cases hd <;> simp [countServing, ih]

theorem countServing_set_finished (l : List ProxySession) (i : Nat)
    (h : l.get? i = some ProxySession.serving) :
    countServing (l.set i ProxySession.finished) + 1 = countServing l := by
  induction l generalizing i with
  | nil => simp at h
  | cons hd tl ih =>
    cases i with
    | zero =>
      simp only [List.get?] at h
      injection h with h
      subst h
      simp [countServing]
    | succ j =>
      simp only [List.get?] at h
      cases hd <;> simp [countServing, List.set, ih j h]

/-- The drain invariant: the wait-group counter equals the number of
streams being served, and once shutdown has returned nothing is being
served. -/
def DrainInv (s : CoordServerState) : Prop :=
  s.wgCount = countServing s.sessions ∧
    (s.shutdownDone = true → countServing s.sessions = 0)

theorem applyServerOp_drainInv (s : CoordServerState) (op : ServerOp)
    (h : DrainInv s) : DrainInv (applyServerOp s op) := by
  obtain ⟨hwg, hsd⟩ := h
  cases op with
  | connStart =>
    simp only [applyServerOp]
    cases hdone : s.shutdownDone with
    | true => simpa [hdone] using ⟨hwg, hsd⟩
    | false =>
      simp only [hdone, if_false, Bool.false_eq_true]
      exact ⟨by simp [countServing_append_serving, hwg], by simp [hdone]⟩
  | connFinish i =>
    simp only [applyServerOp]
    cases hget : s.sessions.get? i with
    | none => exact ⟨hwg, hsd⟩
    | some ph =>
      cases ph with
      | finished => exact ⟨hwg, hsd⟩
      | serving =>
        have hcnt := countServing_set_finished s.sessions i hget
        constructor
        · simp only [hwg]; omega
        · intro hdone
          have h0 := hsd hdone
          omega
  | shutdownReturn =>
    simp only [applyServerOp]
    by_cases hc : s.wgCount = 0
    · rw [if_pos hc]
      exact ⟨hwg, fun _ => by show countServing s.sessions = 0; omega⟩
    · rw [if_neg hc]
      exact ⟨hwg, hsd⟩

/-- C8: shutdown does not return while any coordinate stream is being
served.  (i) The handler registers with the shared wait group before
anything else and deregisters last (its trace starts with the
wait-group add and ends with the deferred done); (ii) from the initial
server state, any interleaving of starts, finishes and the shutdown
wait keeps the wait-group counter equal to the number of streams being
served, and once shutdown has returned nothing is being served; (iii) a
shutdown-return step can fire only from a state with nothing being
served. -/
theorem C8_shutdown_drains_streams :
    (∀ (acceptOk : Bool) (id : UUID) (serveErr : Option String),
      ∃ rest, workspaceProxyCoordinate acceptOk id serveErr =
        CoordEvent.wgAdd :: rest ∧
        rest.getLast? = some CoordEvent.wgDone) ∧
    (∀ ops : List ServerOp, DrainInv (ops.foldl applyServerOp initServerState)) ∧
    (∀ s : CoordServerState, DrainInv s → s.shutdownDone = false →
      (applyServerOp s ServerOp.shutdownReturn).shutdownDone = true →
      countServing s.sessions = 0) := by
  refine ⟨?_, ?_, ?_⟩
  · intro acceptOk id serveErr
    cases acceptOk with
    | false =>
      exact ⟨[CoordEvent.writeHTTP 400 "Failed to accept websocket.",
              CoordEvent.wgDone], rfl, rfl⟩
    | true =>
      cases serveErr with
      | none =>
        exact ⟨[CoordEvent.serveMultiAgent id, CoordEvent.serveProxy id,
                CoordEvent.serveEnd id, CoordEvent.netConnClose,
                CoordEvent.wgDone], rfl, rfl⟩
      | some e =>
        exact ⟨[CoordEvent.serveMultiAgent id, CoordEvent.serveProxy id,
                CoordEvent.serveEnd id, CoordEvent.wsClose StatusInternalError,
                CoordEvent.netConnClose, CoordEvent.wgDone], rfl, rfl⟩
  · intro ops
    have key : ∀ (l : List ServerOp) (s : CoordServerState), DrainInv s →
        DrainInv (l.foldl applyServerOp s) := by
      intro l
      induction l with
      | nil => intro s h; exact h
      | cons op rest ih => intro s h; exact ih _ (applyServerOp_drainInv s op h)
    exact key ops initServerState ⟨rfl, fun _ => rfl⟩
  · intro s hinv hsd hret
    simp only [applyServerOp] at hret
    by_cases hc : s.wgCount = 0
    · rw [← hinv.1]; exact hc
    · rw [if_neg hc] at hret
      rw [hsd] at hret
      exact absurd hret (by simp)

/-- A concrete server state: one connection already finished, nothing
serving, shutdown not yet returned. -/
def drainWitnessState : CoordServerState :=
  { wgCount := 0, sessions := [ProxySession.finished], shutdownDone := false }

theorem C8_shutdown_drains_streams_witness :
    DrainInv drainWitnessState ∧
    drainWitnessState.shutdownDone = false ∧
    (applyServerOp drainWitnessState ServerOp.shutdownReturn).shutdownDone = true ∧
    countServing drainWitnessState.sessions = 0 :=
  ⟨⟨rfl, fun h => by simp [drainWitnessState] at h⟩, rfl, rfl,
    C8_shutdown_drains_streams.2.2 drainWitnessState
      ⟨rfl, fun h => by simp [drainWitnessState] at h⟩ rfl rfl⟩

/-! ## The per-peer coalescing queue -/

/-- An update pending in a peer's outbound queue. -/
inductive Update
  | nodeUpdate (peerId : UUID) (node : Node)
  | peerGone (peerId : UUID)
deriving DecidableEq, Repr

/-- Modelled from the spec: the coalescing insert of a `NodeUpdate`
into the queue (the indexed-head structure of the coordinator's queue,
outside this tree): the pending `NodeUpdate` for the same source, if
any, is replaced in place by the newer one; otherwise the update is
appended. -/
def putNodeUpdate (pid : UUID) (n : Node) : List Update → List Update
  | [] => [Update.nodeUpdate pid n]
  | Update.nodeUpdate p m :: rest =>
    if p = pid then Update.nodeUpdate pid n :: rest
    else Update.nodeUpdate p m :: putNodeUpdate pid n rest
  | Update.peerGone p :: rest => Update.peerGone p :: putNodeUpdate pid n rest

/-- Modelled from the spec: a `PeerGone` supersedes the pending
`NodeUpdate` for its source: that slot is emptied. -/
def dropNodeUpdatesFor (pid : UUID) : List Update → List Update
  | [] => []
  | Update.nodeUpdate p m :: rest =>
    if p = pid then dropNodeUpdatesFor pid rest
    else Update.nodeUpdate p m :: dropNodeUpdatesFor pid rest
  | Update.peerGone p :: rest => Update.peerGone p :: dropNodeUpdatesFor pid rest

/-- Modelled from the spec: enqueue with the coalescing policy: a
`NodeUpdate` coalesces against the pending one for its source; a
`PeerGone` supersedes any pending `NodeUpdate` for its source and is
itself appended, never dropped. -/
def enqueue (q : List Update) : Update → List Update
  | Update.nodeUpdate pid n => putNodeUpdate pid n q
  | Update.peerGone pid => dropNodeUpdatesFor pid q ++ [Update.peerGone pid]

/-- The pending `NodeUpdate` payloads from source `pid`, in the order
the send loop would transmit them. -/
def nodesFor (pid : UUID) : List Update → List Node
  | [] => []
  | Update.nodeUpdate p n :: rest =>
    if p = pid then n :: nodesFor pid rest else nodesFor pid rest
  | Update.peerGone _ :: rest => nodesFor pid rest

/-- Queue well-formedness: at most one pending `NodeUpdate` per
source. -/
def Coalesced (q : List Update) : Prop :=
  ∀ pid, (nodesFor pid q).length ≤ 1

theorem nodesFor_put_same (pid : UUID) (n : Node) (q : List Update)
    (h : (nodesFor pid q).length ≤ 1) :
    nodesFor pid (putNodeUpdate pid n q) = [n] := by
  induction q with
  | nil => simp [putNodeUpdate, nodesFor]
  | cons u rest ih =>
    cases u with
    | nodeUpdate p m =>
      by_cases hp : p = pid
      · subst hp
        simp only [nodesFor, if_pos rfl, List.length_cons] at h
        have hrest : nodesFor p rest = [] := by
          cases hr : nodesFor p rest with
          | nil => rfl
          | cons x xs => rw [hr] at h; simp at h
        simp [putNodeUpdate, nodesFor, hrest]
      · simp only [nodesFor, if_neg hp] at h
        simp [putNodeUpdate, nodesFor, hp, ih h]
    | peerGone p =>
      simp only [nodesFor] at h
      simp [putNodeUpdate, nodesFor, ih h]

theorem nodesFor_put_other (pid pid' : UUID) (n : Node) (q : List Update)
    (hne : pid' ≠ pid) :
    nodesFor pid' (putNodeUpdate pid n q) = nodesFor pid' q := by
  induction q with
  | nil => simp [putNodeUpdate, nodesFor, Ne.symm hne]
  | cons u rest ih =>
    cases u with
    | nodeUpdate p m =>
      by_cases hp : p = pid
      · subst hp
        simp [putNodeUpdate, nodesFor, Ne.symm hne]
      · by_cases hp' : p = pid'
        · simp [putNodeUpdate, nodesFor, hp, hp', hne, ih]
        · simp [putNodeUpdate, nodesFor, hp, hp', ih]
    | peerGone p => simp [putNodeUpdate, nodesFor, ih]

theorem nodesFor_drop_same (pid : UUID) (q : List Update) :
    nodesFor pid (dropNodeUpdatesFor pid q) = [] := by
  induction q with
  | nil => simp [dropNodeUpdatesFor, nodesFor]
  | cons u rest ih =>
    cases u with
    | nodeUpdate p m =>
      by_cases hp : p = pid
      · simp [dropNodeUpdatesFor, hp, ih]
      · simp [dropNodeUpdatesFor, nodesFor, hp, ih]
    | peerGone p => simp [dropNodeUpdatesFor, nodesFor, ih]

theorem nodesFor_drop_other (pid pid' : UUID) (q : List Update)
    (hne : pid' ≠ pid) :
    nodesFor pid' (dropNodeUpdatesFor pid q) = nodesFor pid' q := by
  induction q with
  | nil => simp [dropNodeUpdatesFor]
  | cons u rest ih =>
    cases u with
    | nodeUpdate p m =>
      by_cases hp : p = pid
      · subst hp
        simp [dropNodeUpdatesFor, nodesFor, Ne.symm hne, ih]
      · by_cases hp' : p = pid'
        · simp [dropNodeUpdatesFor, nodesFor, hp, hp', hne, ih]
        · simp [dropNodeUpdatesFor, nodesFor, hp, hp', ih]
    | peerGone p => simp [dropNodeUpdatesFor, nodesFor, ih]

theorem nodesFor_append (pid : UUID) (q1 q2 : List Update) :
    nodesFor pid (q1 ++ q2) = nodesFor pid q1 ++ nodesFor pid q2 := by
  induction q1 with
  | nil => simp [nodesFor]
  | cons u rest ih =>
    cases u with
    | nodeUpdate p m =>
      by_cases hp : p = pid
      · simp [nodesFor, hp, ih]
      · simp [nodesFor, hp, ih]
    | peerGone p => simp [nodesFor, ih]

theorem enqueue_coalesced (q : List Update) (u : Update) (h : Coalesced q) :
    Coalesced (enqueue q u) := by
  cases u with
  | nodeUpdate pid n =>
    intro pid'
    by_cases hp : pid' = pid
    · subst hp
      rw [show enqueue q (Update.nodeUpdate pid' n) = putNodeUpdate pid' n q
          from rfl]
      rw [nodesFor_put_same pid' n q (h pid')]
      simp
    · rw [show enqueue q (Update.nodeUpdate pid n) = putNodeUpdate pid n q
          from rfl]
      rw [nodesFor_put_other pid pid' n q hp]
      exact h pid'
  | peerGone pid =>
    intro pid'
    rw [show enqueue q (Update.peerGone pid) =
        dropNodeUpdatesFor pid q ++ [Update.peerGone pid] from rfl]
    rw [nodesFor_append]
    by_cases hp : pid' = pid
    · subst hp
      rw [nodesFor_drop_same]
      simp [nodesFor]
    · rw [nodesFor_drop_other pid pid' q hp]
      simpa [nodesFor] using h pid'

/-- A run of self-updates from source `pid` enqueued before the send
loop drains. -/
def enqueueNodeUpdates (pid : UUID) (q : List Update) (ns : List Node) :
    List Update :=
  ns.foldl (fun acc n => enqueue acc (Update.nodeUpdate pid n)) q

theorem enqueueNodeUpdates_last (pid : UUID) (ns : List Node) :
    ∀ (q : List Update) (l : Node), Coalesced q → ns.getLast? = some l →
    nodesFor pid (enqueueNodeUpdates pid q ns) = [l] := by
  induction ns with
  | nil => intro q l hq hl; simp at hl
  | cons n rest ih =>
    intro q l hq hl
    cases rest with
    | nil =>
      simp only [List.getLast?_singleton, Option.some_inj] at hl
      subst hl
      exact nodesFor_put_same pid _ q (hq pid)
    | cons m rest' =>
      rw [List.getLast?_cons_cons] at hl
      have hstep : enqueueNodeUpdates pid q (n :: m :: rest') =
          enqueueNodeUpdates pid (enqueue q (Update.nodeUpdate pid n))
            (m :: rest') := rfl
      rw [hstep]
      exact ih (enqueue q (Update.nodeUpdate pid n)) l
        (enqueue_coalesced q _ hq) hl

/-- C2: coalescing policy.  For any run of `NodeUpdate`s from one
source enqueued onto a well-formed queue before the send loop drains
it, the queue holds exactly the most recent one for that source (so a
subscriber receives at most the last self-update and never a stale one
after a newer one); and enqueueing a `PeerGone` for that source leaves
no pending `NodeUpdate` for it while the `PeerGone` itself is present,
never dropped. -/
theorem C2_queue_coalescing_policy (q : List Update) (pid : UUID)
    (ns : List Node) (l : Node) (hq : Coalesced q)
    (hl : ns.getLast? = some l) :
    nodesFor pid (enqueueNodeUpdates pid q ns) = [l] ∧
    ∀ q' : List Update,
      nodesFor pid (enqueue q' (Update.peerGone pid)) = [] ∧
      Update.peerGone pid ∈ enqueue q' (Update.peerGone pid) := by
  refine ⟨enqueueNodeUpdates_last pid ns q l hq hl, ?_⟩
  intro q'
  constructor
  · rw [show enqueue q' (Update.peerGone pid) =
        dropNodeUpdatesFor pid q' ++ [Update.peerGone pid] from rfl]
    rw [nodesFor_append, nodesFor_drop_same]
    simp [nodesFor]
  · rw [show enqueue q' (Update.peerGone pid) =
        dropNodeUpdatesFor pid q' ++ [Update.peerGone pid] from rfl]
    simp

theorem C2_queue_coalescing_policy_witness :
    Coalesced [] ∧
    ([Node.mk [] 0, Node.mk [] 1].getLast? = some (Node.mk [] 1)) ∧
    (nodesFor 0 (enqueueNodeUpdates 0 [] [Node.mk [] 0, Node.mk [] 1]) =
        [Node.mk [] 1] ∧
      ∀ q' : List Update,
        nodesFor 0 (enqueue q' (Update.peerGone 0)) = [] ∧
        Update.peerGone 0 ∈ enqueue q' (Update.peerGone 0)) :=
  ⟨fun pid => by simp [nodesFor], rfl,
    C2_queue_coalescing_policy [] 0 [Node.mk [] 0, Node.mk [] 1]
      (Node.mk [] 1) (fun pid => by simp [nodesFor]) rfl⟩

/-! ## The multi-agent aggregator -/

/-- The multi-agent state machine of the spec:
Fresh → Open → Closed. -/
inductive MAState
  | fresh
  | opened
  | closed
deriving DecidableEq, Repr

/-- `ErrClosed`: operation on a closed multi-agent. -/
inductive MAError
  | errClosed
deriving DecidableEq, Repr

/-- Modelled from the spec: the multi-agent aggregator (its
implementation lives in the tailnet package outside this tree; its
interface is the `MultiAgentConn` mocked under
`tailnet/tailnettest/multiagentmock.go`): a synthetic peer with
subscriptions, an optional self node, and a queue of coalesced
batches pulled by `NextUpdate`. -/
structure MultiAgent where
  state : MAState
  subscriptions : List UUID
  selfNode : Option Node
  queue : List (List Node)
deriving DecidableEq, Repr

/-- Modelled from the spec: `subscribe_agent(agent_id)` — idempotent
add; fails with `ErrClosed` on a closed multi-agent. -/
def MultiAgent.subscribeAgent (m : MultiAgent) (a : UUID) :
    Except MAError MultiAgent :=
  if m.state = MAState.closed then Except.error MAError.errClosed
  else Except.ok { m with
    state := MAState.opened
    subscriptions :=
      if a ∈ m.subscriptions then m.subscriptions
      else m.subscriptions ++ [a] }

/-- Modelled from the spec: `unsubscribe_agent(agent_id)` — idempotent
remove; fails with `ErrClosed` on a closed multi-agent. -/
def MultiAgent.unsubscribeAgent (m : MultiAgent) (a : UUID) :
    Except MAError MultiAgent :=
  if m.state = MAState.closed then Except.error MAError.errClosed
  else Except.ok { m with
    state := MAState.opened
    subscriptions := m.subscriptions.erase a }

/-- Modelled from the spec: `update_self(node)` — the proxy advertises
its own node; fails with `ErrClosed` on a closed multi-agent. -/
def MultiAgent.updateSelf (m : MultiAgent) (n : Node) :
    Except MAError MultiAgent :=
  if m.state = MAState.closed then Except.error MAError.errClosed
  else Except.ok { m with state := MAState.opened, selfNode := some n }

/-- Modelled from the spec: `close()`; from Closed every operation,
close included, fails with `ErrClosed` (and never panics — the model
is a total function). -/
def MultiAgent.close (m : MultiAgent) : Except MAError MultiAgent :=
  if m.state = MAState.closed then Except.error MAError.errClosed
  else Except.ok { m with state := MAState.closed }

/-- `is_closed()`. -/
def MultiAgent.isClosed (m : MultiAgent) : Bool :=
  decide (m.state = MAState.closed)

/-- Result of one `next_update()` call: a batch with the `more` flag,
or a block on the still-open empty queue. -/
inductive NextUpdateResult
  | ready (batch : List Node) (more : Bool)
  | blocked
deriving DecidableEq, Repr

/-- Modelled from the spec: `next_update() → (batch, more)`: pulls the
next coalesced batch; `more = false` indicates the aggregator is
closed; on an open empty queue the call blocks. -/
def MultiAgent.nextUpdate (m : MultiAgent) : NextUpdateResult × MultiAgent :=
  match m.queue with
  | b :: rest => (NextUpdateResult.ready b true, { m with queue := rest })
  | [] =>
    if m.state = MAState.closed then (NextUpdateResult.ready [] false, m)
    else (NextUpdateResult.blocked, m)

/-- Call `next_update()` repeatedly (at most `fuel` times), stopping
right after the first `more = false` result, as a consumer loop
does. -/
def drainUpdates : Nat → MultiAgent → List NextUpdateResult
  | 0, _ => []
  | fuel + 1, m =>
    match m.nextUpdate with
    | (NextUpdateResult.ready b false, _) => [NextUpdateResult.ready b false]
    | (r, m') => r :: drainUpdates fuel m'

theorem drainUpdates_closed (queue : List (List Node)) :
    ∀ m : MultiAgent, m.state = MAState.closed → m.queue = queue →
    drainUpdates (queue.length + 1) m =
      queue.map (fun b => NextUpdateResult.ready b true) ++
        [NextUpdateResult.ready [] false] := by
  induction queue with
  | nil =>
    intro m hs hq
    simp [drainUpdates, MultiAgent.nextUpdate, hq, hs]
  | cons b rest ih =>
    intro m hs hq
    have hstep : m.nextUpdate =
        (NextUpdateResult.ready b true, { m with queue := rest }) := by
      simp [MultiAgent.nextUpdate, hq]
    simp only [List.length_cons, drainUpdates, hstep, List.map_cons,
      List.cons_append]
    exact congrArg _ (ih { m with queue := rest } hs rfl)

/-- Does a `next_update()` result signal closure (`more = false`)? -/
def signalsClosed : NextUpdateResult → Bool
  | NextUpdateResult.ready _ false => true
  | _ => false

/-- C6: on a multi-agent in the Closed state, every operation —
subscribe, unsubscribe, update-self, and a second close — fails with
`ErrClosed` (the model functions are total, so none panics);
`is_closed()` is true; and a consumer loop pulling `next_update()`
receives every pending batch with `more = true` and then `more = false`
exactly once, after the queue drains. -/
theorem C6_closed_multiagent (m : MultiAgent) (a : UUID) (n : Node)
    (h : m.state = MAState.closed) :
    m.subscribeAgent a = Except.error MAError.errClosed ∧
    m.unsubscribeAgent a = Except.error MAError.errClosed ∧
    m.updateSelf n = Except.error MAError.errClosed ∧
    m.close = Except.error MAError.errClosed ∧
    m.isClosed = true ∧
    drainUpdates (m.queue.length + 1) m =
      m.queue.map (fun b => NextUpdateResult.ready b true) ++
        [NextUpdateResult.ready [] false] ∧
    (drainUpdates (m.queue.length + 1) m).countP signalsClosed = 1 := by
  have hdrain := drainUpdates_closed m.queue m h rfl
  refine ⟨?_, ?_, ?_, ?_, ?_, hdrain, ?_⟩
  · simp [MultiAgent.subscribeAgent, h]
  · simp [MultiAgent.unsubscribeAgent, h]
  · simp [MultiAgent.updateSelf, h]
  · simp [MultiAgent.close, h]
  · simp [MultiAgent.isClosed, h]
  · rw [hdrain, List.countP_append]
    have hzero : ∀ bs : List (List Node),
        (bs.map fun b => NextUpdateResult.ready b true).countP
          signalsClosed = 0 := by
      intro bs
      induction bs with
      | nil => rfl
      | cons b rest ih => simp [List.countP_cons, signalsClosed, ih]
    rw [hzero]
    simp [List.countP_cons, signalsClosed]

theorem C6_closed_multiagent_witness :
    (MultiAgent.mk MAState.closed [] none [[Node.mk [] 7]]).state =
      MAState.closed ∧
    ((MultiAgent.mk MAState.closed [] none
        [[Node.mk [] 7]]).subscribeAgent 0 =
      Except.error MAError.errClosed ∧
    (MultiAgent.mk MAState.closed [] none
        [[Node.mk [] 7]]).unsubscribeAgent 0 =
      Except.error MAError.errClosed ∧
    (MultiAgent.mk MAState.closed [] none
        [[Node.mk [] 7]]).updateSelf (Node.mk [] 7) =
      Except.error MAError.errClosed ∧
    (MultiAgent.mk MAState.closed [] none [[Node.mk [] 7]]).close =
      Except.error MAError.errClosed ∧
    (MultiAgent.mk MAState.closed [] none [[Node.mk [] 7]]).isClosed = true ∧
    drainUpdates
        ((MultiAgent.mk MAState.closed [] none
          [[Node.mk [] 7]]).queue.length + 1)
        (MultiAgent.mk MAState.closed [] none [[Node.mk [] 7]]) =
      (MultiAgent.mk MAState.closed [] none [[Node.mk [] 7]]).queue.map
          (fun b => NextUpdateResult.ready b true) ++
        [NextUpdateResult.ready [] false] ∧
    (drainUpdates
        ((MultiAgent.mk MAState.closed [] none
          [[Node.mk [] 7]]).queue.length + 1)
        (MultiAgent.mk MAState.closed [] none
          [[Node.mk [] 7]])).countP signalsClosed = 1) :=
  ⟨rfl, C6_closed_multiagent
    (MultiAgent.mk MAState.closed [] none [[Node.mk [] 7]]) 0
    (Node.mk [] 7) rfl⟩
